import Mathlib

/-!
# Verification of the overlook-blm-rss build pipeline

Shallow embedding of `scripts/build.js` (three variant scripts of the same
pipeline: the puppeteer scraper, the keyword-API script with an HTML fallback,
and the advanced-search API script), together with theorems settling the
frozen specification claims.

JavaScript values flowing through the pipeline are modelled by `JVal`
(JSON values: the payloads come from `res.json()` / parsed configuration,
so `undefined` never occurs as a *value*; an absent object field is
modelled by `Option` at the access site).  Fallible JavaScript code
(member access on `null` raises a `TypeError`) is modelled with `Except`.
-/

set_option autoImplicit false

namespace BlmRss

/-- A JSON value, as produced by `res.json()` / `JSON.parse`. -/
inductive JVal where
  | jnull : JVal
  | jbool : Bool → JVal
  | jnum : Int → JVal
  | jstr : String → JVal
  | jarr : List JVal → JVal
  | jobj : List (String × JVal) → JVal
  deriving Repr

mutual

def JVal.beq : JVal → JVal → Bool
  | .jnull, .jnull => true
  | .jbool a, .jbool b => a == b
  | .jnum a, .jnum b => a == b
  | .jstr a, .jstr b => a == b
  | .jarr a, .jarr b => JVal.beqList a b
  | .jobj a, .jobj b => JVal.beqFields a b
  | _, _ => false

def JVal.beqList : List JVal → List JVal → Bool
  | [], [] => true
  | x :: xs, y :: ys => JVal.beq x y && JVal.beqList xs ys
  | _, _ => false

def JVal.beqFields : List (String × JVal) → List (String × JVal) → Bool
  | [], [] => true
  | (k, x) :: xs, (l, y) :: ys => k == l && JVal.beq x y && JVal.beqFields xs ys
  | _, _ => false

end

instance : BEq JVal := ⟨JVal.beq⟩

mutual

theorem JVal.beq_iff : ∀ {a b : JVal}, JVal.beq a b = true ↔ a = b
  | .jnull, .jnull => by simp [JVal.beq]
  | .jnull, .jbool _ | .jnull, .jnum _ | .jnull, .jstr _ | .jnull, .jarr _
  | .jnull, .jobj _ => by simp [JVal.beq]
  | .jbool _, .jnull | .jbool _, .jnum _ | .jbool _, .jstr _ | .jbool _, .jarr _
  | .jbool _, .jobj _ => by simp [JVal.beq]
  | .jnum _, .jnull | .jnum _, .jbool _ | .jnum _, .jstr _ | .jnum _, .jarr _
  | .jnum _, .jobj _ => by simp [JVal.beq]
  | .jstr _, .jnull | .jstr _, .jbool _ | .jstr _, .jnum _ | .jstr _, .jarr _
  | .jstr _, .jobj _ => by simp [JVal.beq]
  | .jarr _, .jnull | .jarr _, .jbool _ | .jarr _, .jnum _ | .jarr _, .jstr _
  | .jarr _, .jobj _ => by simp [JVal.beq]
  | .jobj _, .jnull | .jobj _, .jbool _ | .jobj _, .jnum _ | .jobj _, .jstr _
  | .jobj _, .jarr _ => by simp [JVal.beq]
  | .jbool a, .jbool b => by simp [JVal.beq]
  | .jnum a, .jnum b => by simp [JVal.beq]
  | .jstr a, .jstr b => by simp [JVal.beq]
  | .jarr a, .jarr b => by
      simp only [JVal.beq, JVal.jarr.injEq]
      exact JVal.beqList_iff
  | .jobj a, .jobj b => by
      simp only [JVal.beq, JVal.jobj.injEq]
      exact JVal.beqFields_iff

theorem JVal.beqList_iff : ∀ {a b : List JVal}, JVal.beqList a b = true ↔ a = b
  | [], [] => by simp [JVal.beqList]
  | [], _ :: _ => by simp [JVal.beqList]
  | _ :: _, [] => by simp [JVal.beqList]
  | x :: xs, y :: ys => by
      simp only [JVal.beqList, Bool.and_eq_true, List.cons.injEq]
      exact and_congr JVal.beq_iff JVal.beqList_iff

theorem JVal.beqFields_iff :
    ∀ {a b : List (String × JVal)}, JVal.beqFields a b = true ↔ a = b
  | [], [] => by simp [JVal.beqFields]
  | [], _ :: _ => by simp [JVal.beqFields]
  | _ :: _, [] => by simp [JVal.beqFields]
  | (k, x) :: xs, (l, y) :: ys => by
      simp only [JVal.beqFields, Bool.and_eq_true, List.cons.injEq, Prod.mk.injEq,
        beq_iff_eq]
      constructor
      · rintro ⟨⟨h1, h2⟩, h3⟩
        exact ⟨⟨h1, JVal.beq_iff.1 h2⟩, JVal.beqFields_iff.1 h3⟩
      · rintro ⟨⟨h1, h2⟩, h3⟩
        exact ⟨⟨h1, JVal.beq_iff.2 h2⟩, JVal.beqFields_iff.2 h3⟩

end

instance : DecidableEq JVal := fun a b =>
  decidable_of_iff (JVal.beq a b = true) JVal.beq_iff

/-- JavaScript truthiness of a JSON value (`if (v) ...`). -/
def jsTruthy : JVal → Bool
  | .jnull => false
  | .jbool b => b
  | .jnum n => n != 0
  | .jstr s => s != ""
  | .jarr _ => true
  | .jobj _ => true

mutual

/-- JavaScript string coercion `String(v)` / `v.toString()` of a JSON value. -/
def jsToString : JVal → String
  | .jnull => "null"
  | .jbool b => if b then "true" else "false"
  | .jnum n => toString n
  | .jstr s => s
  | .jarr xs => String.intercalate "," (jsToStringArr xs)
  | .jobj _ => "[object Object]"

/-- Array elements under `Array.prototype.toString`: `null` renders as `""`. -/
def jsToStringArr : List JVal → List String
  | [] => []
  | .jnull :: vs => "" :: jsToStringArr vs
  | v :: vs => jsToString v :: jsToStringArr vs

end

/-- JavaScript `s.trim()`: strip leading and trailing whitespace. -/
def jsTrim (s : String) : String :=
  String.mk (((s.data.dropWhile Char.isWhitespace).reverse.dropWhile Char.isWhitespace).reverse)

/-- JavaScript member access `p.k` on a non-`null` value: the field's value
when `p` is an object that has it, otherwise `undefined` (`none`).
Access on `null` (a `TypeError`) is handled explicitly at each call site. -/
def jfield (p : JVal) (k : String) : Option JVal :=
  match p with
  | .jobj fs => fs.lookup k
  | _ => none

/-- Truthiness of a possibly-`undefined` value (`none` = `undefined`). -/
def optTruthy : Option JVal → Bool
  | none => false
  | some v => jsTruthy v

-- ---------------------------------------------------------------------------
-- escapeXml (build.js lines 14-16 / 148-150 / 407-411)
-- ---------------------------------------------------------------------------

/-- The per-character replacement table of `escapeXml`:
`{'<':'&lt;','>':'&gt;','&':'&amp;',"'":'&apos;','"':'&quot;'}`, and every
character outside the `/[<>&'"]/` class is left as itself. -/
def xmlEntity (c : Char) : String :=
  if c = '<' then "&lt;"
  else if c = '>' then "&gt;"
  else if c = '&' then "&amp;"
  else if c = '\'' then "&apos;"
  else if c = '"' then "&quot;"
  else String.singleton c

/-- `escapeXml(s)`: the global character-class replace
`s.replace(/[<>&'"]/g, c => table[c])`, i.e. the concatenation of the
per-character images. -/
def escapeXml (s : String) : String :=
  String.join (s.data.map xmlEntity)

-- ---------------------------------------------------------------------------
-- Per-state output file name (build.js lines 333-334 / 512-513):
-- `st.toUpperCase().replace(/[^A-Z]/g, '')` and the path `by-state/<name>.xml`.
-- ---------------------------------------------------------------------------

/-- `st.toUpperCase().replace(/[^A-Z]/g, '')` (ASCII case mapping). -/
def stateFileName (st : String) : String :=
  String.mk ((st.data.map Char.toUpper).filter (fun c => decide ('A' ≤ c) && decide (c ≤ 'Z')))

/-- The path the per-state feed for label `st` is written to. -/
def stateFilePath (st : String) : String :=
  "by-state/" ++ stateFileName st ++ ".xml"

-- ---------------------------------------------------------------------------
-- normalizeRows (build.js lines 152-175 / 379-405)
-- ---------------------------------------------------------------------------

/-- The canonical record shape built by `normalizeRows`.  The `raw`
pass-through field of the source object literal is omitted: it is retained
for diagnostics only and never read again by the pipeline. -/
structure Record where
  id : String
  title : String
  url : Option JVal
  state : Option String
  office : Option JVal
  nepaStatus : Option JVal
  nepaType : Option JVal
  deriving Repr, DecidableEq

/-- The candidate row-list fields, in source order. -/
def rowListKeys : List String := ["items", "content", "results", "data"]

/-- `Array.isArray(data.k1) ? data.k1 : Array.isArray(data.k2) ? ... : []`. -/
def firstArrayField (data : JVal) : List String → List JVal
  | [] => []
  | k :: ks =>
    match jfield data k with
    | some (.jarr xs) => xs
    | _ => firstArrayField data ks

/-- Row-list location of `normalizeRows`:
`Array.isArray(data) ? data : Array.isArray(data.items) ? data.items : ... : []`.
On a `null` payload the member access `data.items` raises a `TypeError`,
modelled as `Except.error`. -/
def normalizeRowsLocate (data : JVal) : Except Unit (List JVal) :=
  match data with
  | .jarr xs => .ok xs
  | .jnull => .error ()
  | _ => .ok (firstArrayField data rowListKeys)

/-- The JavaScript nullish-coalescing chain `p.k1 ?? p.k2 ?? ... ?? undefined`:
the first field whose value is neither absent nor `null`. -/
def jsCoal (p : JVal) : List String → Option JVal
  | [] => none
  | k :: ks =>
    match jfield p k with
    | some .jnull => jsCoal p ks
    | some v => some v
    | none => jsCoal p ks

/-- Identity resolution order of `normalizeRows`. -/
def idKeys : List String := ["id", "projectId", "nepaId", "documentId", "projectID", "nepaNumber"]

/-- Title resolution order of `normalizeRows`. -/
def titleKeys : List String := ["projectName", "title", "name"]

/-- Office resolution order of `normalizeRows`. -/
def officeKeys : List String := ["leadOfficeName", "office", "fieldOffice"]

/-- NEPA-status resolution order of `normalizeRows`. -/
def statusKeys : List String := ["nepaStatus", "nepaStage", "status"]

/-- NEPA-type resolution order of `normalizeRows`. -/
def typeKeys : List String := ["nepaDocType", "type"]

/-- The fixed project deep-link template. -/
def projectUrl (s : String) : String :=
  "https://eplanning.blm.gov/eplanning-ui/project/" ++ s ++ "/510"

/-- `id ? projectUrl(id) : undefined`. -/
def urlFromId (id : String) : Option JVal :=
  if id = "" then none else some (.jstr (projectUrl id))

/-- `p.projectId ? projectUrl(p.projectId) : (id ? projectUrl(id) : undefined)`. -/
def urlFallback (p : JVal) (id : String) : Option JVal :=
  match jfield p "projectId" with
  | some v => if jsTruthy v then some (.jstr (projectUrl (jsToString v))) else urlFromId id
  | none => urlFromId id

/-- `Array.isArray(p.states) ? p.states : []`. -/
def statesArr (p : JVal) : List JVal :=
  match jfield p "states" with
  | some (.jarr xs) => xs
  | _ => []

/-- `p.state ? [p.state] : (Array.isArray(p.states) ? p.states : [])`. -/
def statesOf (p : JVal) : List JVal :=
  match jfield p "state" with
  | some v => if jsTruthy v then [v] else statesArr p
  | none => statesArr p

/-- The record literal built by `normalizeRows`'s `rows.map(p => ...)`
callback for a non-`null` row `p`. -/
def normalizeRowCore (p : JVal) : Record :=
  let id := jsTrim (jsToString ((jsCoal p idKeys).getD (.jstr "")))
  let title := jsTrim (jsToString ((jsCoal p titleKeys).getD (.jstr ("BLM Project " ++ id))))
  let joined := String.intercalate ", " (((statesOf p).filter jsTruthy).map jsToString)
  let state := if joined = "" then none else some joined
  let office := jsCoal p officeKeys
  let nepaStatus := jsCoal p statusKeys
  let nepaType := jsCoal p typeKeys
  let url : Option JVal :=
    match jfield p "url" with
    | some .jnull => urlFallback p id
    | some v => some v
    | none => urlFallback p id
  { id, title, url, state, office, nepaStatus, nepaType }

/-- The body of `normalizeRows`'s `rows.map(p => ...)` callback.  Member
access on a `null` row raises a `TypeError`, modelled as `Except.error`. -/
def normalizeRow (p : JVal) : Except Unit Record :=
  match p with
  | .jnull => .error ()
  | _ => .ok (normalizeRowCore p)

/-- The final filter of `normalizeRows`: `.filter(x => x.id && x.url)`. -/
def keepRecord (r : Record) : Bool :=
  r.id != "" && optTruthy r.url

/-- `normalizeRows(data)`: locate the row list, map every row through the
normalizing callback, and keep only the rows with a truthy `id` and `url`. -/
def normalizeRows (data : JVal) : Except Unit (List Record) :=
  match normalizeRowsLocate data with
  | .error e => .error e
  | .ok rows =>
    match rows.mapM normalizeRow with
    | .error e => .error e
    | .ok recs => .ok (recs.filter keepRecord)

-- ---------------------------------------------------------------------------
-- Query expansion (build.js lines 95-103 / 287-303)
-- ---------------------------------------------------------------------------

/-- A configured query: `searchText` plus the optional `perState` flag
(JavaScript truthiness of the flag collapses to a `Bool`). -/
structure Query where
  searchText : String
  perState : Bool
  deriving Repr, DecidableEq

/-- The search terms executed for one query, exactly as inlined in `run`:
a query with falsy (empty) `searchText` is skipped; with `perState` and a
non-empty state list, one term per state, the concatenation trimmed;
otherwise the single term `q.searchText` (pushed as-is, untrimmed). -/
def expandTerms (states : List String) (q : Query) : List String :=
  if q.searchText = "" then []
  else if q.perState && !states.isEmpty then
    states.map (fun st => jsTrim (q.searchText ++ " " ++ st))
  else [q.searchText]

-- ---------------------------------------------------------------------------
-- The merge / dedup loops of `run`
-- (build.js lines 105-114: key `${r.id}|${r.url}`; lines 287-308 and
--  455-487: key `r.id`)
-- ---------------------------------------------------------------------------

/-- A record scraped by the rendered-DOM (puppeteer) variant: identity,
title and absolute link only. -/
structure ScrapedRec where
  id : String
  title : String
  url : String
  deriving Repr, DecidableEq

/-- One iteration of the dedup loop:
`if (seen.has(key)) continue; seen.add(key); merged.push(r)`.
The `seen` set is modelled as the list of keys added so far. -/
def dedupStepBy {α : Type} (key : α → String) (acc : List α × List String) (r : α) :
    List α × List String :=
  if key r ∈ acc.2 then acc else (acc.1 ++ [r], acc.2 ++ [key r])

/-- The nested retrieval loop of `run`, given the per-term row lists in
configuration order: fold every row of every term through the dedup step. -/
def runMergeBy {α : Type} (key : α → String) (rowss : List (List α)) : List α :=
  (rowss.foldl (fun acc rows => rows.foldl (dedupStepBy key) acc) ([], [])).1

/-- Merge loop of the keyword-API and advanced-search variants: the dedup
key is `r.id` alone. -/
def runMergeById (rowss : List (List Record)) : List Record :=
  runMergeBy (fun r => r.id) rowss

/-- Merge loop of the rendered-DOM variant: the dedup key is the composite
`${r.id}|${r.url}`. -/
def runMergeScrape (rowss : List (List ScrapedRec)) : List ScrapedRec :=
  runMergeBy (fun r => r.id ++ "|" ++ r.url) rowss

/-- First-occurrence-wins deduplication by key, stated declaratively:
keep the head, drop every later element with the same key. -/
def dedupByKey {α : Type} (key : α → String) : List α → List α
  | [] => []
  | x :: xs => x :: dedupByKey key (xs.filter (fun y => key y != key x))
  termination_by l => l.length
  decreasing_by simp only [List.length_cons]; exact Nat.lt_succ_of_le (List.length_filter_le _ _)

-- ---------------------------------------------------------------------------
-- State partitioning (build.js lines 320-328 / 499-507)
-- ---------------------------------------------------------------------------

/-- `s.split(c)` on a single-character separator, JavaScript semantics:
`"".split(',')` is `[""]`, empty fields are kept. -/
def splitOnChar (c : Char) : List Char → List (List Char)
  | [] => [[]]
  | x :: xs =>
    let rest := splitOnChar c xs
    if x = c then [] :: rest
    else
      match rest with
      | [] => [[x]]
      | h :: t => (x :: h) :: t

/-- `(s).split(',').map(s => s.trim()).filter(Boolean)`. -/
def splitStates (s : String) : List String :=
  ((splitOnChar ',' s.data).map (fun l => jsTrim (String.mk l))).filter (fun t => t != "")

/-- The state tokens of a record: `(r.state || '').split(',')...`. -/
def statesOfRecord (r : Record) : List String :=
  splitStates ((r.state).getD "")

/-- Lookup in the insertion-ordered association list modelling the
`byState` `Map`. -/
def alookup (st : String) : List (String × List Record) → Option (List Record)
  | [] => none
  | (k, v) :: t => if k = st then some v else alookup st t

/-- `byState.get(st).push(r)`: append `r` to the value of the (unique)
entry with key `st`. -/
def updState : List (String × List Record) → String → Record →
    List (String × List Record)
  | [], _, _ => []
  | (k, v) :: t, st, r => if k = st then (k, v ++ [r]) :: t else (k, v) :: updState t st r

/-- `if (!byState.has(st)) byState.set(st, []); byState.get(st).push(r)` —
the insertion-ordered `Map` is modelled as an association list. -/
def pushState (m : List (String × List Record)) (st : String) (r : Record) :
    List (String × List Record) :=
  if m.any (fun p => p.1 == st) then updState m st r
  else m ++ [(st, [r])]

/-- The `byState` partition loop of `run`. -/
def partitionByState (merged : List Record) : List (String × List Record) :=
  merged.foldl (fun m r => (statesOfRecord r).foldl (fun m2 st => pushState m2 st r) m) []

/-- The records a given state's partition receives, stated declaratively:
every record, in merged order, once per occurrence of the state among the
record's tokens. -/
def stateOccurrences (st : String) (merged : List Record) : List Record :=
  (merged.map (fun r => List.replicate ((statesOfRecord r).count st) r)).flatten

-- ---------------------------------------------------------------------------
-- Item description assembly of itemToRss (build.js lines 18-24 / 177-183)
-- ---------------------------------------------------------------------------

/-- Truthiness of a possibly-absent string. -/
def strTruthy : Option String → Bool
  | none => false
  | some s => s != ""

/-- The `descParts` array of `itemToRss`: one line per truthy optional
metadata field, in source order.  (`escapeXml` in the source assumes a
string; a non-string field value is coerced here via `jsToString`.) -/
def descParts (item : Record) : List String :=
  (if strTruthy item.state then ["<b>State:</b> " ++ escapeXml ((item.state).getD "")] else [])
  ++ (if optTruthy item.office then
        ["<b>Office:</b> " ++ escapeXml (jsToString ((item.office).getD .jnull))] else [])
  ++ (if optTruthy item.nepaType then
        ["<b>Doc:</b> " ++ escapeXml (jsToString ((item.nepaType).getD .jnull))] else [])
  ++ (if optTruthy item.nepaStatus then
        ["<b>Status:</b> " ++ escapeXml (jsToString ((item.nepaStatus).getD .jnull))] else [])

/-- The rendered description:
`descParts.length ? '<p>' + descParts.join('<br/>') + '</p>' : ''`. -/
def itemDescription (item : Record) : String :=
  if descParts item = [] then ""
  else "<p>" ++ String.intercalate "<br/>" (descParts item) ++ "</p>"

/-- How many optional metadata fields of the record are present (truthy). -/
def presentMetaCount (item : Record) : Nat :=
  (if strTruthy item.state then 1 else 0) + (if optTruthy item.office then 1 else 0)
  + (if optTruthy item.nepaType then 1 else 0) + (if optTruthy item.nepaStatus then 1 else 0)

-- ---------------------------------------------------------------------------
-- HTML link extraction: fetchKeywordViaHtml (build.js lines 237-275)
-- regex: /href="(\/eplanning-ui\/project\/(\d+)\/510)"[^>]*>([^<]+)<\/a>/gi
-- ---------------------------------------------------------------------------

/-- Case-insensitive literal match (the regex carries the `i` flag): on
success returns the consumed original characters and the remainder. -/
def dropLitCI : List Char → List Char → Option (List Char × List Char)
  | [], s => some ([], s)
  | _ :: _, [] => none
  | c :: cs, x :: xs =>
    if c.toLower = x.toLower then
      match dropLitCI cs xs with
      | some (con, r) => some (x :: con, r)
      | none => none
    else none

/-- Attempt to match the project-link regex anchored at the start of `s`.
On success returns the digit capture, the captured relative href, the raw
link text capture, and the remainder after the match.  Each quantified
piece (`\d+`, `[^>]*`, `[^<]+`) is deterministic here: its character class
excludes the character the pattern requires next, so the greedy maximal
run is the only possible parse. -/
def tryMatchAt (s : List Char) : Option (List Char × List Char × List Char × List Char) :=
  match dropLitCI "href=\"".data s with
  | none => none
  | some (_, r0) =>
    match dropLitCI "/eplanning-ui/project/".data r0 with
    | none => none
    | some (c1, r1) =>
      let (ds, r2) := r1.span Char.isDigit
      if ds.isEmpty then none
      else
        match dropLitCI "/510".data r2 with
        | none => none
        | some (c2, r3) =>
          match r3 with
          | '"' :: r4 =>
            let r5 := (r4.span (fun c => c != '>')).2
            match r5 with
            | '>' :: r6 =>
              let (txt, r7) := r6.span (fun c => c != '<')
              if txt.isEmpty then none
              else
                match dropLitCI "</a>".data r7 with
                | none => none
                | some (_, r8) => some (ds, c1 ++ ds ++ c2, txt, r8)
            | _ => none
          | _ => none

/-- The `while ((m = linkRe.exec(html)) !== null)` loop: scan left to
right, emitting non-overlapping matches in document order; on failure at a
position, advance one character.  `fuel` bounds the scan (the caller passes
the string length, which suffices since every step consumes a character). -/
def scanAux : Nat → List Char → List (List Char × List Char × List Char)
  | 0, _ => []
  | _ + 1, [] => []
  | fuel + 1, c :: cs =>
    match tryMatchAt (c :: cs) with
    | some (ds, rel, txt, rest) => (ds, rel, txt) :: scanAux fuel rest
    | none => scanAux fuel cs

/-- All regex matches of the project-link pattern, in document order. -/
def extractLinks (html : String) : List (List Char × List Char × List Char) :=
  scanAux html.data.length html.data

/-- The HTML fallback of the keyword variant (its pure part: the fetched
body is the argument): one record per regex match, `id` the digit capture,
`title` the trimmed link text with the `BLM Project {id}` fallback, `url`
the absolute href, all optional metadata absent. -/
def fetchKeywordViaHtml (html : String) : List Record :=
  (extractLinks html).map fun m =>
    let id := String.mk m.1
    let title := jsTrim (String.mk m.2.2)
    { id := id,
      title := if title = "" then "BLM Project " ++ id else title,
      url := some (.jstr ("https://eplanning.blm.gov" ++ String.mk m.2.1)),
      state := none, office := none, nepaStatus := none, nepaType := none }

-- ---------------------------------------------------------------------------
-- Retrieval strategy ladder: fetchKeyword (build.js lines 208-235)
-- ---------------------------------------------------------------------------

/-- `ct.toLowerCase().includes('application/json')` where `ct` is the
response's declared content type. -/
def hasJsonContentType (ct : String) : Bool :=
  decide ("application/json".data <:+: ct.data.map Char.toLower)

/-- `fetchKeyword`, abstracted over the upstream response: if the declared
content type indicates JSON, parse and normalize the body; otherwise fall
back to fetching the HTML search page (its body `html`) and extracting
link records. -/
def fetchKeyword (ct : String) (data : JVal) (html : String) : Except Unit (List Record) :=
  if hasJsonContentType ct then normalizeRows data
  else .ok (fetchKeywordViaHtml html)

/-- Row-list location, modelled from the spec's words: the payload itself if
it is a list, else the first present of `items`, `content`, `results`, `data`
whose value is a list, else zero rows. -/
def locateRowsSpec (data : JVal) : List JVal :=
  match data with
  | .jarr xs => xs
  | _ =>
    ((rowListKeys.filterMap fun k =>
      match jfield data k with
      | some (.jarr xs) => some xs
      | _ => none).head?).getD []

/-- A character is one of the five reserved XML markup characters. -/
def reservedXmlChar (c : Char) : Prop :=
  c = '&' ∨ c = '<' ∨ c = '>' ∨ c = '\'' ∨ c = '"'

instance (c : Char) : Decidable (reservedXmlChar c) := by
  unfold reservedXmlChar; infer_instance

theorem firstArrayField_eq (data : JVal) (ks : List String) :
    firstArrayField data ks =
      ((ks.filterMap fun k =>
        match jfield data k with
        | some (.jarr xs) => some xs
        | _ => none).head?).getD [] := by
  induction ks with
  | nil => rfl
  | cons k ks ih =>
      cases h : jfield data k with
      | none => simp [firstArrayField, h, ih]
      | some v => cases v <;> simp [firstArrayField, h, ih]

/-- Counterexample for C4: on a `null` payload, `normalizeRows` does not
treat the payload as zero rows — the member access `data.items` raises a
`TypeError` (modelled as `Except.error`). -/
theorem normalizeRowsLocate_null_c4 :
    normalizeRowsLocate JVal.jnull = Except.error () := rfl

/-- **C4 (amended)** — for every non-`null` payload, `normalizeRows` totally
locates the row list: the payload itself if it is a list, else the first of
`items`, `content`, `results`, `data` whose value is a list, and any other
non-`null` payload is treated as zero rows; a `null` payload instead raises
a `TypeError`. -/
theorem normalizeRowsLocate_c4 (data : JVal) (h : data ≠ JVal.jnull) :
    normalizeRowsLocate data = .ok (locateRowsSpec data) := by
  cases data
  case jnull => exact absurd rfl h
  case jarr xs => rfl
  all_goals simp [normalizeRowsLocate, locateRowsSpec, firstArrayField_eq]

/-- Witness for C4 at a payload whose `items` is not a list but whose
`content` is. -/
theorem normalizeRowsLocate_c4_witness :
    normalizeRowsLocate (JVal.jobj [("items", .jstr "no"), ("content", .jarr [.jnum 1])])
      = .ok [JVal.jnum 1] :=
  (normalizeRowsLocate_c4 (JVal.jobj [("items", .jstr "no"), ("content", .jarr [.jnum 1])])
    (by decide)).trans rfl

theorem normalizeRow_ok (p : JVal) (rec : Record) (h : normalizeRow p = .ok rec) :
    rec = normalizeRowCore p := by
  cases p <;> simp_all [normalizeRow]

/-- **C5** — a normalized row is discarded exactly when its resolved `id` is
empty or its resolved `url` is empty (falsy); every record `normalizeRows`
emits has a non-empty `id` and a truthy `url`; and a row with no id-like
field (the coalescing chain over the six identity keys resolves to nothing)
is never kept, whatever its `url`. -/
theorem normalizeRows_emit_c5 :
    (∀ (data : JVal) (recs : List Record) (r : Record),
        normalizeRows data = .ok recs → r ∈ recs →
        r.id ≠ "" ∧ ∃ v, r.url = some v ∧ jsTruthy v = true)
    ∧ (∀ rec : Record,
        keepRecord rec = false ↔ (rec.id = "" ∨ optTruthy rec.url = false))
    ∧ (∀ (p : JVal) (rec : Record), normalizeRow p = .ok rec →
        jsCoal p idKeys = none → keepRecord rec = false) := by
  refine ⟨?_, ?_, ?_⟩
  · intro data recs r h hr
    unfold normalizeRows at h
    split at h
    · exact absurd h (by simp)
    · split at h
      · exact absurd h (by simp)
      · injection h with h
        subst h
        have hkeep := (List.mem_filter.1 hr).2
        unfold keepRecord at hkeep
        obtain ⟨h1, h2⟩ := by simpa [Bool.and_eq_true] using hkeep
        refine ⟨by simpa using h1, ?_⟩
        cases hu : r.url with
        | none => rw [hu] at h2; exact absurd h2 (by simp [optTruthy])
        | some v => exact ⟨v, rfl, by rw [hu] at h2; simpa [optTruthy] using h2⟩
  · intro rec
    unfold keepRecord
    constructor
    · intro h
      rcases Bool.and_eq_false_iff.1 h with h' | h'
      · exact Or.inl (by simpa using h')
      · exact Or.inr h'
    · intro h
      rcases h with h' | h'
      · simp [h']
      · simp [h']
  · intro p rec h hnone
    have hrec := normalizeRow_ok p rec h
    have hid : rec.id = "" := by
      rw [hrec]
      show jsTrim (jsToString ((jsCoal p idKeys).getD (.jstr ""))) = ""
      rw [hnone]
      have h1 : jsToString (JVal.jstr "") = "" := by simp [jsToString]
      simp only [Option.getD, h1]
      decide
    simp [keepRecord, hid]

/-- Witness for C5 at the spec's own scenario: one JSON row with
`projectId: "100"` and `state: "NV"`. -/
theorem normalizeRows_emit_c5_witness :
    (Record.mk "100" "BLM Project 100" (some (.jstr (projectUrl "100"))) (some "NV")
        none none none).id ≠ ""
    ∧ ∃ v, (Record.mk "100" "BLM Project 100" (some (.jstr (projectUrl "100"))) (some "NV")
        none none none).url = some v ∧ jsTruthy v = true :=
  normalizeRows_emit_c5.1
    (JVal.jarr [.jobj [("projectId", .jstr "100"), ("state", .jstr "NV")]])
    [Record.mk "100" "BLM Project 100" (some (.jstr (projectUrl "100"))) (some "NV")
      none none none]
    (Record.mk "100" "BLM Project 100" (some (.jstr (projectUrl "100"))) (some "NV")
      none none none)
    rfl (by simp)

/-- Counterexample for C2: a non-`perState` query whose `searchText` carries
trailing whitespace is submitted as-is; the term is not the trimmed
`searchText` the claim states. -/
theorem expandTerms_untrimmed_c2 :
    expandTerms [] { searchText := "solar ", perState := false } = ["solar "]
    ∧ jsTrim "solar " = "solar" ∧ ("solar " : String) ≠ "solar" :=
  ⟨rfl, by decide, by decide⟩

/-- **C2 (amended)** — a query with empty `searchText` yields zero terms;
with `perState` and a non-empty state list, one term per state equal to the
trimmed concatenation; otherwise exactly one term equal to `searchText`
exactly as configured (untrimmed). -/
theorem expandTerms_c2 (q : Query) (states : List String) :
    (q.searchText = "" → expandTerms states q = [])
    ∧ (q.searchText ≠ "" → q.perState = true → states ≠ [] →
        expandTerms states q = states.map (fun st => jsTrim (q.searchText ++ " " ++ st)))
    ∧ (q.searchText ≠ "" → (q.perState = false ∨ states = []) →
        expandTerms states q = [q.searchText]) := by
  refine ⟨fun h => by simp [expandTerms, h], fun h hp hs => ?_, fun h hcase => ?_⟩
  · cases states with
    | nil => exact absurd rfl hs
    | cons a l => simp [expandTerms, h, hp, List.isEmpty]
  · rcases hcase with hp | hs
    · simp [expandTerms, h, hp]
    · subst hs
      simp [expandTerms, h, List.isEmpty]

/-- Witness for C2 at the spec's end-to-end scenario:
`{searchText: "solar", perState: true}` with states `["NV","UT"]`. -/
theorem expandTerms_c2_witness :
    expandTerms ["NV", "UT"] { searchText := "solar", perState := true }
      = ["solar NV", "solar UT"] :=
  ((expandTerms_c2 { searchText := "solar", perState := true } ["NV", "UT"]).2.1
    (by decide) rfl (by decide)).trans (by decide)

theorem foldl_dedupStepBy {α : Type} (key : α → String) :
    ∀ (l : List α) (m : List α) (s : List String),
      l.foldl (dedupStepBy key) (m, s) =
        (m ++ dedupByKey key (l.filter (fun x => decide (key x ∉ s))),
         s ++ (dedupByKey key (l.filter (fun x => decide (key x ∉ s)))).map key) := by
  intro l
  induction l with
  | nil => intro m s; simp [dedupByKey]
  | cons x xs ih =>
      intro m s
      by_cases hx : key x ∈ s
      · have hstep : dedupStepBy key (m, s) x = (m, s) := by simp [dedupStepBy, hx]
        have hf : (x :: xs).filter (fun y => decide (key y ∉ s))
            = xs.filter (fun y => decide (key y ∉ s)) := by
          simp [List.filter_cons, hx]
        rw [List.foldl_cons, hstep, ih m s, hf]
      · have hstep : dedupStepBy key (m, s) x = (m ++ [x], s ++ [key x]) := by
          simp [dedupStepBy, hx]
        have hf : (x :: xs).filter (fun y => decide (key y ∉ s))
            = x :: xs.filter (fun y => decide (key y ∉ s)) := by
          simp [List.filter_cons, hx]
        have hff : (xs.filter (fun y => decide (key y ∉ s))).filter (fun y => key y != key x)
            = xs.filter (fun y => decide (key y ∉ s ++ [key x])) := by
          rw [List.filter_filter]
          apply List.filter_congr
          intro y _
          by_cases h1 : key y = key x <;> by_cases h2 : key y ∈ s <;>
            simp [h1, h2, List.mem_append]
        rw [List.foldl_cons, hstep, ih (m ++ [x]) (s ++ [key x]), hf]
        rw [show dedupByKey key (x :: xs.filter (fun y => decide (key y ∉ s)))
            = x :: dedupByKey key ((xs.filter (fun y => decide (key y ∉ s))).filter
                (fun y => key y != key x)) from by rw [dedupByKey]]
        rw [hff]
        simp [List.append_assoc]

theorem runMergeBy_eq {α : Type} (key : α → String) (rowss : List (List α)) :
    runMergeBy key rowss = dedupByKey key rowss.flatten := by
  unfold runMergeBy
  rw [← List.foldl_flatten, foldl_dedupStepBy key rowss.flatten [] []]
  simp only [List.not_mem_nil, not_false_eq_true, decide_True, List.nil_append]
  rw [List.filter_true]

theorem mem_dedupByKey {α : Type} (key : α → String) :
    ∀ (l : List α) (x : α), x ∈ dedupByKey key l → x ∈ l := by
  have main : ∀ (n : Nat) (l : List α), l.length ≤ n →
      ∀ x, x ∈ dedupByKey key l → x ∈ l := by
    intro n
    induction n with
    | zero =>
        intro l hl x hx
        cases l with
        | nil => simp [dedupByKey] at hx
        | cons a as => simp at hl
    | succ n ih =>
        intro l hl x hx
        cases l with
        | nil => simp [dedupByKey] at hx
        | cons a as =>
            rw [dedupByKey] at hx
            rcases List.mem_cons.1 hx with h | h
            · simp [h]
            · have hlen : (as.filter (fun y => key y != key a)).length ≤ n := by
                have := List.length_filter_le (fun y => key y != key a) as
                simp only [List.length_cons] at hl
                omega
              have := ih (as.filter (fun y => key y != key a)) hlen x h
              exact List.mem_cons_of_mem _ (List.mem_of_mem_filter this)
  exact fun l x hx => main l.length l le_rfl x hx

theorem nodup_dedupByKey {α : Type} (key : α → String) :
    ∀ l : List α, ((dedupByKey key l).map key).Nodup := by
  have main : ∀ (n : Nat) (l : List α), l.length ≤ n →
      ((dedupByKey key l).map key).Nodup := by
    intro n
    induction n with
    | zero =>
        intro l hl
        cases l with
        | nil => simp [dedupByKey]
        | cons a as => simp at hl
    | succ n ih =>
        intro l hl
        cases l with
        | nil => simp [dedupByKey]
        | cons a as =>
            rw [dedupByKey]
            simp only [List.map_cons, List.nodup_cons]
            constructor
            · intro hmem
              rcases List.mem_map.1 hmem with ⟨y, hy, hky⟩
              have hyf := mem_dedupByKey key _ y hy
              have := (List.mem_filter.1 hyf).2
              simp only [bne_iff_ne, ne_eq, decide_eq_true_eq] at this
              exact this hky
            · apply ih
              have := List.length_filter_le (fun y => key y != key a) as
              simp only [List.length_cons] at hl
              omega
  exact fun l => main l.length l le_rfl

/-- Counterexample for C1: in the rendered-DOM variant the dedup key is
`${r.id}|${r.url}`, so two retrieved records sharing an `id` but differing
in `url` are both kept — the merged set is not deduplicated by `id` alone,
and two merged records share an `id`. -/
theorem runMerge_id_url_c1 :
    runMergeScrape [[ScrapedRec.mk "1" "A" "u1", ScrapedRec.mk "1" "B" "u2"]]
      = [ScrapedRec.mk "1" "A" "u1", ScrapedRec.mk "1" "B" "u2"]
    ∧ (ScrapedRec.mk "1" "A" "u1").id = (ScrapedRec.mk "1" "B" "u2").id
    ∧ ScrapedRec.mk "1" "A" "u1" ≠ ScrapedRec.mk "1" "B" "u2" :=
  ⟨by decide, rfl, by decide⟩

/-- **C1 (amended)** — the keyword-API and advanced-search merge loops
produce exactly the first-occurrence-wins deduplication of the flattened
retrieval results keyed by `id` (so no two merged records share an `id`,
and later records with a seen `id` are dropped wholesale, never merged);
the rendered-DOM variant's loop instead deduplicates by the composite key
`id|url`. -/
theorem runMerge_c1 (rowss : List (List Record)) (srowss : List (List ScrapedRec)) :
    runMergeById rowss = dedupByKey (fun r => r.id) rowss.flatten
    ∧ ((runMergeById rowss).map (fun r => r.id)).Nodup
    ∧ runMergeScrape srowss = dedupByKey (fun r => r.id ++ "|" ++ r.url) srowss.flatten :=
  ⟨runMergeBy_eq _ rowss,
   by rw [runMergeById, runMergeBy_eq]; exact nodup_dedupByKey _ _,
   runMergeBy_eq _ srowss⟩

theorem alookup_append (m1 m2 : List (String × List Record)) (k : String) :
    alookup k (m1 ++ m2) = ((alookup k m1).orElse (fun _ => alookup k m2)) := by
  induction m1 with
  | nil => simp [alookup]
  | cons a t ih =>
      obtain ⟨x, v⟩ := a
      by_cases h : x = k <;> simp [alookup, h, ih]

theorem any_key_alookup (m : List (String × List Record)) (st : String) :
    m.any (fun p => p.1 == st) = true ↔ ∃ v, alookup st m = some v := by
  induction m with
  | nil => simp [alookup]
  | cons a t ih =>
      obtain ⟨k, v⟩ := a
      by_cases hk : k = st <;> simp [alookup, List.any_cons, hk, ih]

theorem alookup_updState (st : String) (r : Record) :
    ∀ (t : List (String × List Record)) (st' : String),
      alookup st' (updState t st r) =
        (alookup st' t).map (fun v => if st' = st then v ++ [r] else v) := by
  intro t
  induction t with
  | nil => simp [updState, alookup]
  | cons a t ih =>
      intro st'
      obtain ⟨k, v⟩ := a
      by_cases hk : k = st
      · subst hk
        by_cases h' : k = st'
        · subst h'
          simp [updState, alookup]
        · have h2 : ¬ st' = k := fun h => h' h.symm
          simp [updState, alookup, h', h2]
      · by_cases h' : k = st'
        · subst h'
          simp [updState, alookup, hk]
        · simp [updState, alookup, hk, h', ih]

theorem pushState_alookup (m : List (String × List Record)) (st : String) (r : Record)
    (st' : String) :
    alookup st' (pushState m st r) =
      if st' = st then some (((alookup st m).getD []) ++ [r]) else alookup st' m := by
  by_cases hany : m.any (fun p => p.1 == st) = true
  · obtain ⟨v, hv⟩ := (any_key_alookup m st).1 hany
    simp only [pushState, hany, if_true]
    rw [alookup_updState]
    by_cases hst : st' = st
    · subst hst; simp [hv]
    · simp [hst]
  · have hany' : m.any (fun p => p.1 == st) = false := by
      cases h : m.any (fun p => p.1 == st)
      · rfl
      · exact absurd h hany
    have hnone : alookup st m = none := by
      cases h : alookup st m with
      | none => rfl
      | some v => exact absurd ((any_key_alookup m st).2 ⟨v, h⟩) hany
    simp only [pushState, hany', Bool.false_eq_true, if_false]
    rw [alookup_append]
    by_cases hst : st' = st
    · subst hst; simp [hnone, alookup]
    · cases h : alookup st' m <;> simp [h, alookup, hst, Ne.symm hst, Option.orElse]

theorem foldl_pushState_tokens (r : Record) :
    ∀ (tokens : List String) (m : List (String × List Record)) (st' : String),
      alookup st' (tokens.foldl (fun m2 st => pushState m2 st r) m) =
        (if tokens.count st' = 0 then alookup st' m
         else some (((alookup st' m).getD []) ++ List.replicate (tokens.count st') r)) := by
  intro tokens
  induction tokens with
  | nil => intro m st'; simp
  | cons t ts ih =>
      intro m st'
      rw [List.foldl_cons, ih]
      by_cases ht : st' = t
      · subst ht
        have hcount : (st' :: ts).count st' = ts.count st' + 1 := by
          simp [List.count_cons]
        rw [hcount]
        have hl := pushState_alookup m st' r st'
        rw [if_pos rfl] at hl
        rw [if_neg (Nat.succ_ne_zero (ts.count st'))]
        by_cases hz : ts.count st' = 0
        · rw [if_pos hz, hl, hz]
          simp [List.replicate]
        · rw [if_neg hz, hl]
          simp only [Option.getD_some]
          rw [List.replicate_succ]
          simp [List.append_assoc]
      · have hcount : (t :: ts).count st' = ts.count st' := by
          simp [List.count_cons, beq_iff_eq, Ne.symm ht]
        rw [hcount]
        have hl := pushState_alookup m t r st'
        rw [if_neg ht] at hl
        rw [hl]

theorem foldl_partition :
    ∀ (merged : List Record) (m : List (String × List Record)) (st' : String),
      alookup st' (merged.foldl
          (fun mm r => (statesOfRecord r).foldl (fun m2 st => pushState m2 st r) mm) m) =
        (if stateOccurrences st' merged = [] then alookup st' m
         else some (((alookup st' m).getD []) ++ stateOccurrences st' merged)) := by
  intro merged
  induction merged with
  | nil => intro m st'; simp [stateOccurrences]
  | cons r rest ih =>
      intro m st'
      rw [List.foldl_cons, ih]
      have hocc : stateOccurrences st' (r :: rest)
          = List.replicate ((statesOfRecord r).count st') r ++ stateOccurrences st' rest := by
        simp [stateOccurrences]
      rw [hocc, foldl_pushState_tokens r (statesOfRecord r) m st']
      by_cases hz : (statesOfRecord r).count st' = 0
      · simp [hz]
      · have hrep : List.replicate ((statesOfRecord r).count st') r ≠ [] := by
          simp [List.replicate_eq_nil_iff, hz]
        by_cases ho : stateOccurrences st' rest = []
        · simp [hz, ho, hrep]
        · have hne : List.replicate ((statesOfRecord r).count st') r
              ++ stateOccurrences st' rest ≠ [] := by
            simp [hrep]
          simp [hz, ho, hne, List.append_assoc]

/-- Counterexample for C3: a record whose comma-joined `state` value repeats
a token (`"NV, NV"`, one distinct token) is pushed into the `NV` partition
twice — once per occurrence, not once per distinct token. -/
theorem partition_dup_token_c3 :
    partitionByState [Record.mk "1" "t" (some (.jstr "u")) (some "NV, NV") none none none]
      = [("NV", [Record.mk "1" "t" (some (.jstr "u")) (some "NV, NV") none none none,
                 Record.mk "1" "t" (some (.jstr "u")) (some "NV, NV") none none none])] := by
  decide

/-- **C3 (amended)** — the partition for any state label holds exactly the
merged records carrying that label among their trimmed non-empty state
tokens, in encounter order, repeated once per occurrence of the token in
the record's comma-joined `state` value; a record with no resolved state
(absent or trimming to nothing) contributes to no partition, and a label
no record carries has no partition entry at all. -/
theorem partition_lookup_c3 (merged : List Record) (st : String) :
    alookup st (partitionByState merged) =
      (if stateOccurrences st merged = [] then none
       else some (stateOccurrences st merged)) := by
  unfold partitionByState
  rw [foldl_partition merged [] st]
  simp [alookup]

theorem wrapP_ne_empty (s : String) : ("<p>" ++ s ++ "</p>" : String) ≠ "" := by
  intro h
  have h2 := congrArg String.length h
  simp only [String.length_append] at h2
  have h3 : ("<p>" : String).length = 3 := by decide
  have h4 : ("</p>" : String).length = 4 := by decide
  have h5 : ("" : String).length = 0 := by decide
  omega

/-- **C8** — the serialized description is assembled from exactly the present
(truthy) optional metadata fields, one line each: the number of lines equals
the number of present fields, the description is empty exactly when no
optional field is present (no residual markup or whitespace), and with
exactly one present field it is a `<p>` wrapper around that single line,
with no line separator. -/
theorem itemDescription_c8 (item : Record) :
    (descParts item).length = presentMetaCount item
    ∧ (itemDescription item = "" ↔ presentMetaCount item = 0)
    ∧ (presentMetaCount item = 1 →
        ∃ l, descParts item = [l] ∧ itemDescription item = "<p>" ++ l ++ "</p>") := by
  cases hs : strTruthy item.state <;> cases ho : optTruthy item.office <;>
    cases ht : optTruthy item.nepaType <;> cases hst : optTruthy item.nepaStatus <;>
    simp [descParts, itemDescription, presentMetaCount, hs, ho, ht, hst,
      String.intercalate, String.intercalate.go, wrapP_ne_empty]

/-- Witness for C8 at the spec's scenario: `state="Nevada"`, all other
optional fields absent — exactly one metadata line. -/
theorem itemDescription_c8_witness :
    ∃ l, descParts (Record.mk "1" "t" (some (.jstr "u")) (some "Nevada") none none none) = [l]
      ∧ itemDescription (Record.mk "1" "t" (some (.jstr "u")) (some "Nevada") none none none)
          = "<p>" ++ l ++ "</p>" :=
  (itemDescription_c8 (Record.mk "1" "t" (some (.jstr "u")) (some "Nevada") none none none)).2.2
    (by decide)

theorem digit_toLower (c : Char) (h : c.isDigit = true) : c.toLower = c := by
  simp only [Char.isDigit, Bool.and_eq_true, decide_eq_true_eq] at h
  obtain ⟨h1, h2⟩ := h
  have h1' : (48 : UInt32).toNat ≤ c.val.toNat := UInt32.le_def.mp h1
  have h2' : c.val.toNat ≤ (57 : UInt32).toNat := UInt32.le_def.mp h2
  have e1 : (48 : UInt32).toNat = 48 := by decide
  have e2 : (57 : UInt32).toNat = 57 := by decide
  rw [e1] at h1'
  rw [e2] at h2'
  simp only [Char.toLower, Char.toNat]
  rw [if_neg]
  intro hcon
  obtain ⟨h3, _⟩ := hcon
  omega

theorem map_toLower_digits (l : List Char) (h : ∀ c ∈ l, c.isDigit = true) :
    l.map Char.toLower = l := by
  induction l with
  | nil => rfl
  | cons c cs ih =>
      simp only [List.map_cons, digit_toLower c (h c (by simp))]
      rw [ih (fun d hd => h d (by simp [hd]))]

theorem dropLitCI_spec :
    ∀ (lit s con r : List Char), dropLitCI lit s = some (con, r) →
      s = con ++ r ∧ con.map Char.toLower = lit.map Char.toLower := by
  intro lit
  induction lit with
  | nil =>
      intro s con r h
      simp only [dropLitCI, Option.some.injEq, Prod.mk.injEq] at h
      obtain ⟨h1, h2⟩ := h
      subst h1; subst h2
      simp
  | cons c cs ih =>
      intro s con r h
      cases s with
      | nil => simp [dropLitCI] at h
      | cons x xs =>
          simp only [dropLitCI] at h
          split at h
          · rename_i htl
            split at h
            · rename_i con' r' heq
              simp only [Option.some.injEq, Prod.mk.injEq] at h
              obtain ⟨h1, h2⟩ := h
              subst h1; subst h2
              obtain ⟨hx1, hx2⟩ := ih xs con' r' heq
              constructor
              · rw [hx1]; rfl
              · simp [List.map_cons, hx2, htl]
            · exact absurd h (by simp)
          · exact absurd h (by simp)

theorem tryMatchAt_spec (s ds rel txt rest : List Char)
    (h : tryMatchAt s = some (ds, rel, txt, rest)) :
    ds ≠ [] ∧ (∀ c ∈ ds, c.isDigit = true)
    ∧ rel.map Char.toLower = "/eplanning-ui/project/".data ++ ds ++ "/510".data
    ∧ txt ≠ [] := by
  unfold tryMatchAt at h
  split at h
  · exact absurd h (by simp)
  · rename_i p0 r0
    split at h
    · exact absurd h (by simp)
    · rename_i q1 c1 r1 heq1
      split at h
      rename_i ds0 r2 heqspan
      split at h
      · exact absurd h (by simp)
      · rename_i hdne
        split at h
        · exact absurd h (by simp)
        · rename_i q2 c2 r3 heq2
          split at h
          · rename_i r4
            dsimp only at h
            split at h
            · rename_i r6 heq4
              split at h
              · exact absurd h (by simp)
              · rename_i htne
                split at h
                · exact absurd h (by simp)
                · rename_i q3 c3 r8 heq5
                  simp only [Option.some.injEq, Prod.mk.injEq] at h
                  obtain ⟨h1, h2, h3, h4⟩ := h
                  subst h1; subst h2; subst h3
                  rw [List.span_eq_take_drop] at heqspan
                  have hds : ds0 = r1.takeWhile Char.isDigit := by
                    have := congrArg Prod.fst heqspan
                    simpa using this.symm
                  have hdig : ∀ c ∈ ds0, c.isDigit = true := by
                    rw [hds]
                    exact fun c hc => List.mem_takeWhile_imp hc
                  have hd1 := dropLitCI_spec _ _ _ _ heq1
                  have hd2 := dropLitCI_spec _ _ _ _ heq2
                  refine ⟨?_, hdig, ?_, ?_⟩
                  · intro hctr
                    rw [hctr] at hdne
                    exact hdne rfl
                  · simp only [List.map_append, hd1.2, hd2.2,
                      map_toLower_digits _ hdig]
                    rw [show "/eplanning-ui/project/".data.map Char.toLower
                        = "/eplanning-ui/project/".data from by decide]
                    rw [show "/510".data.map Char.toLower = "/510".data from by decide]
                  · intro hctr
                    rw [hctr] at htne
                    exact htne rfl
            · exact absurd h (by simp)
          · exact absurd h (by simp)

theorem mem_scanAux :
    ∀ (fuel : Nat) (s : List Char) (m : List Char × List Char × List Char),
      m ∈ scanAux fuel s →
      ∃ s' rest, tryMatchAt s' = some (m.1, m.2.1, m.2.2, rest) := by
  intro fuel
  induction fuel with
  | zero => intro s m h; simp [scanAux] at h
  | succ fuel ih =>
      intro s m h
      cases s with
      | nil => simp [scanAux] at h
      | cons c cs =>
          simp only [scanAux] at h
          split at h
          · rename_i q ds rel txt rest heq
            rcases List.mem_cons.1 h with h1 | h1
            · subst h1
              exact ⟨c :: cs, rest, heq⟩
            · exact ih _ m h1
          · exact ih cs m h

theorem append_str_ne_empty (a b : String) (ha : a ≠ "") : a ++ b ≠ "" := by
  intro h
  have h2 := congrArg String.data h
  rw [String.data_append] at h2
  rcases List.append_eq_nil.mp h2 with ⟨h3, _⟩
  exact ha (String.ext h3)

/-- **C6** — every record the HTML Link Extractor emits stems from one
regex match, in document order: its `id` is the captured non-empty digit
sequence, its `title` is the trimmed link text or the synthesized
`BLM Project {id}` fallback when that text trims to empty (so the title is
never empty), its `url` is the absolute form of the captured href (up to
the `i`-flag's case-insensitivity, it is the project deep link for `id`),
and all optional metadata fields are absent.  The extractor is a total
function of the markup: malformed or anchor-free input yields the empty
match list and hence no records. -/
theorem fetchKeywordViaHtml_c6 (html : String) (r : Record)
    (hr : r ∈ fetchKeywordViaHtml html) :
    (∃ m ∈ extractLinks html,
        r.id = String.mk m.1
        ∧ r.title = (if jsTrim (String.mk m.2.2) = "" then "BLM Project " ++ r.id
                     else jsTrim (String.mk m.2.2))
        ∧ r.url = some (.jstr ("https://eplanning.blm.gov" ++ String.mk m.2.1)))
    ∧ r.id ≠ "" ∧ (∀ c ∈ r.id.data, c.isDigit = true) ∧ r.title ≠ ""
    ∧ (∃ u, r.url = some (.jstr u)
        ∧ u.data.map Char.toLower
            = "https://eplanning.blm.gov/eplanning-ui/project/".data
              ++ r.id.data ++ "/510".data)
    ∧ r.state = none ∧ r.office = none ∧ r.nepaType = none ∧ r.nepaStatus = none := by
  obtain ⟨m, hm, hrec⟩ := List.mem_map.1 hr
  subst hrec
  obtain ⟨s', rest, htm⟩ := mem_scanAux _ _ m hm
  obtain ⟨hne, hdig, hrel, htxt⟩ := tryMatchAt_spec s' m.1 m.2.1 m.2.2 rest htm
  have hid_ne : String.mk m.1 ≠ "" := by
    intro h
    exact hne (congrArg String.data h)
  refine ⟨⟨m, hm, rfl, rfl, rfl⟩, hid_ne, hdig, ?_, ?_, rfl, rfl, rfl, rfl⟩
  · show (if jsTrim (String.mk m.2.2) = "" then "BLM Project " ++ String.mk m.1
        else jsTrim (String.mk m.2.2)) ≠ ""
    split
    · exact append_str_ne_empty "BLM Project " (String.mk m.1) (by decide)
    · rename_i hcond
      exact hcond
  · refine ⟨"https://eplanning.blm.gov" ++ String.mk m.2.1, rfl, ?_⟩
    rw [String.data_append]
    show ("https://eplanning.blm.gov".data ++ m.2.1).map Char.toLower
        = "https://eplanning.blm.gov/eplanning-ui/project/".data ++ m.1 ++ "/510".data
    rw [List.map_append, hrel]
    rw [show "https://eplanning.blm.gov".data.map Char.toLower
        = "https://eplanning.blm.gov".data from by decide]
    rw [show "https://eplanning.blm.gov/eplanning-ui/project/".data
        = "https://eplanning.blm.gov".data ++ "/eplanning-ui/project/".data from by decide]
    simp [List.append_assoc]

/-- Witness for C6 at the spec's scenario: one matching anchor with link
text `Desert Trail`. -/
theorem fetchKeywordViaHtml_c6_witness :
    (Record.mk "42" "Desert Trail"
        (some (.jstr "https://eplanning.blm.gov/eplanning-ui/project/42/510"))
        none none none none).id ≠ "" :=
  (fetchKeywordViaHtml_c6
    "<a href=\"/eplanning-ui/project/42/510\">Desert Trail</a>"
    (Record.mk "42" "Desert Trail"
        (some (.jstr "https://eplanning.blm.gov/eplanning-ui/project/42/510"))
        none none none none)
    (by decide)).2.1

/-- **C7** — the retrieval ladder hands the parsed JSON body to the
Normalizer exactly when the response's declared content type (lowercased)
contains `application/json`; for any other content type it returns the
records extracted from the HTML search page's body instead, never treating
the wrong content type as an error. -/
theorem fetchKeyword_c7 (ct : String) (data : JVal) (html : String) :
    (hasJsonContentType ct = true → fetchKeyword ct data html = normalizeRows data)
    ∧ (hasJsonContentType ct = false →
        fetchKeyword ct data html = .ok (fetchKeywordViaHtml html)) := by
  constructor
  · intro h; simp [fetchKeyword, h]
  · intro h; simp [fetchKeyword, h]

/-- Witness for C7: a `text/html` response falls back to link extraction
(no error, even though the JSON path would fail on its `null` body), and an
`application/json` response is normalized. -/
theorem fetchKeyword_c7_witness :
    fetchKeyword "text/html; charset=utf-8" JVal.jnull "<p>no anchors</p>" = .ok []
    ∧ fetchKeyword "application/json" (JVal.jarr []) "" = .ok [] :=
  ⟨((fetchKeyword_c7 "text/html; charset=utf-8" JVal.jnull "<p>no anchors</p>").2
      (by decide)).trans rfl,
   ((fetchKeyword_c7 "application/json" (JVal.jarr []) "").1 (by decide)).trans rfl⟩

theorem data_join (l : List String) :
    (String.join l).data = (l.map String.data).flatten := by
  have aux : ∀ (l : List String) (init : String),
      (l.foldl (· ++ ·) init).data = init.data ++ (l.map String.data).flatten := by
    intro l
    induction l with
    | nil => intro init; simp
    | cons x xs ih =>
        intro init
        simp only [List.foldl_cons, List.map_cons, List.flatten_cons, ih,
          String.data_append]
        simp [List.append_assoc]
  simp [aux l ""]

theorem escapeXml_data (s : String) :
    (escapeXml s).data = (s.data.map (fun c => (xmlEntity c).data)).flatten := by
  simp [escapeXml, data_join, List.map_map, Function.comp_def]

theorem xmlEntity_of_not_reserved {c : Char} (h : ¬ reservedXmlChar c) :
    xmlEntity c = String.singleton c := by
  unfold reservedXmlChar at h
  push_neg at h
  obtain ⟨h1, h2, h3, h4, h5⟩ := h
  simp [xmlEntity, h1, h2, h3, h4, h5]

/-- **C9** — `escapeXml` replaces each occurrence of `&`, `<`, `>`, `'`, `"`
with its named entity and leaves every other character unchanged; in
particular a string free of the five reserved characters is left identical. -/
theorem escapeXml_entities_c9 (s : String) :
    escapeXml s = String.join (s.data.map xmlEntity)
    ∧ xmlEntity '&' = "&amp;" ∧ xmlEntity '<' = "&lt;" ∧ xmlEntity '>' = "&gt;"
    ∧ xmlEntity '\'' = "&apos;" ∧ xmlEntity '"' = "&quot;"
    ∧ (∀ c : Char, ¬ reservedXmlChar c → xmlEntity c = String.singleton c)
    ∧ ((∀ c ∈ s.data, ¬ reservedXmlChar c) → escapeXml s = s) := by
  refine ⟨rfl, by decide, by decide, by decide, by decide, by decide,
    fun c hc => xmlEntity_of_not_reserved hc, fun h => ?_⟩
  apply String.ext
  rw [escapeXml_data]
  have : ∀ l : List Char, (∀ c ∈ l, ¬ reservedXmlChar c) →
      (l.map (fun c => (xmlEntity c).data)).flatten = l := by
    intro l hl
    induction l with
    | nil => simp
    | cons x xs ih =>
        have hx := xmlEntity_of_not_reserved (hl x (by simp))
        simp only [List.map_cons, List.flatten_cons, hx]
        rw [ih (fun c hc => hl c (by simp [hc]))]
        rfl
  exact this s.data h

/-- Witness for C9 at a concrete reserved-character-free string. -/
theorem escapeXml_entities_c9_witness : escapeXml "BLM Project 42" = "BLM Project 42" :=
  (escapeXml_entities_c9 "BLM Project 42").2.2.2.2.2.2.2 (by decide)

/-- **C10** — the per-state output filename derivation (uppercase, then delete
every character that is not an uppercase letter) is not injective: any two
state labels with the same derivation are written to the same file path, and
in particular the distinct labels `"nv"`/`"NV"` and `"N.V."`/`"NV"` collide,
so the feed written later silently overwrites the earlier one. -/
theorem stateFileName_not_injective_c10 :
    (∀ s1 s2 : String, stateFileName s1 = stateFileName s2 →
      stateFilePath s1 = stateFilePath s2)
    ∧ stateFileName "nv" = stateFileName "NV" ∧ ("nv" : String) ≠ "NV"
    ∧ stateFileName "N.V." = stateFileName "NV" ∧ ("N.V." : String) ≠ "NV" := by
  refine ⟨fun s1 s2 h => ?_, by decide, by decide, by decide, by decide⟩
  simp [stateFilePath, h]

/-- Witness for C10: the two distinct labels `"nv"` and `"NV"` yield one path. -/
theorem stateFileName_not_injective_c10_witness :
    stateFilePath "nv" = stateFilePath "NV" :=
  stateFileName_not_injective_c10.1 "nv" "NV" (by decide)

end BlmRss
